import Mathlib

/-!
Verification of the Zephyr kernel-primitive specification against the
repository sources (drivers/ethernet/eth_stm32_hal.c and the
tests/benchmarks/timing_info benchmark callers).

The kernel implementations of `k_sem`, `k_mutex` and `k_msgq` are not part
of the excerpted sources (only their callers are), so those primitives are
modelled from the specification text (sections 4.3, 4.4, 4.5, 4.1 and 7).
The Ethernet driver functions (`eth_tx`, `eth_rx`, `rx_thread`, `eth_isr`,
`HAL_ETH_RxCpltCallback`, `eth_initialize`) are embedded directly from
eth_stm32_hal.c, following the non-STM32H7X preprocessor path.
-/

/-! ## Semaphore (modelled from the spec) -/

/-- Modelled from the spec: kernel semaphore object (`struct k_sem` is not in
the excerpted sources; only `K_SEM_DEFINE(sem_bench, 0, 1)` style callers
are). Spec section 4.3: a non-negative counter with a configurable maximum
count. -/
structure KSem where
  count : Nat
  limit : Nat
  deriving DecidableEq, Repr

/-- The benchmark semaphore `K_SEM_DEFINE(sem_bench, 0, 1)`:
initial count 0, maximum count 1. -/
def sem_bench : KSem := ⟨0, 1⟩

/-- Modelled from the spec: `give()` in a sequential replay (no waiters):
increment the counter, "with a configurable maximum to prevent silent
overflow — exceeding it fails with LIMIT_EXCEEDED or saturates,
implementation choice".  We pick the saturating choice and document it
here: a give at the maximum count leaves the counter unchanged. -/
def k_sem_give (s : KSem) : KSem :=
  if s.count < s.limit then { s with count := s.count + 1 } else s

/-- Modelled from the spec: `take(duration)` in a sequential replay:
"if counter > 0, decrement and return success immediately; else block";
with no concurrent giver the blocked take times out and the counter is
unchanged.  The Bool records whether the take succeeded. -/
def k_sem_take (s : KSem) : KSem × Bool :=
  if 0 < s.count then ({ s with count := s.count - 1 }, true) else (s, false)

/-- One operation of a semaphore replay sequence. -/
inductive SemOp where
  | take
  | give
  deriving DecidableEq, Repr

/-- Replay a sequence of take/give operations on a semaphore,
also counting the effective gives (those that incremented the counter)
and effective takes (those that decremented it). -/
def sem_replay (s : KSem) : List SemOp → KSem × Nat × Nat
  | [] => (s, 0, 0)
  | SemOp.give :: ops =>
      let r := sem_replay (k_sem_give s) ops
      if s.count < s.limit then (r.1, r.2.1 + 1, r.2.2) else r
  | SemOp.take :: ops =>
      let r := sem_replay (k_sem_take s).1 ops
      if 0 < s.count then (r.1, r.2.1, r.2.2 + 1) else r

/-- Number of give operations in a sequence. -/
def semGives (ops : List SemOp) : Nat := ops.count SemOp.give

/-- Number of take operations in a sequence. -/
def semTakes (ops : List SemOp) : Nat := ops.count SemOp.take

/-! ## Mutex (modelled from the spec) -/

/-- Return codes of the modelled mutex operations.  Spec section 7:
a wrong-owner unlock is a usage error "reported as a distinct error
code"; a lock that blocks until its timeout fires returns a
timeout-kind error. -/
inductive MutexRet where
  | ok
  | notOwner
  | timedOut
  deriving DecidableEq, Repr

/-- Modelled from the spec: kernel mutex object (`struct k_mutex` is not in
the excerpted sources; only `K_MUTEX_DEFINE(mutex0)` style callers are).
Spec section 4.4 / section 3: an optional owner thread and a
recursive-lock depth counter.  Priority-inheritance bookkeeping is
irrelevant to the uncontended recursion claim and is omitted. -/
structure KMutex where
  owner : Option Nat
  lockCount : Nat
  deriving DecidableEq, Repr

/-- The benchmark mutex `K_MUTEX_DEFINE(mutex0)`: initially unowned. -/
def mutex0 : KMutex := ⟨none, 0⟩

/-- Modelled from the spec: `lock(duration)` in a sequential replay:
"if unowned, set owner = caller, depth = 1, ... return success. If owned
by the caller (recursive), increment depth, return success. If owned by
another thread, ... block for duration" — with no concurrent unlocker a
blocked lock times out with the mutex unchanged. -/
def k_mutex_lock (mx : KMutex) (tid : Nat) : KMutex × MutexRet :=
  match mx.owner with
  | none => (⟨some tid, 1⟩, MutexRet.ok)
  | some t =>
      if t = tid then ({ mx with lockCount := mx.lockCount + 1 }, MutexRet.ok)
      else (mx, MutexRet.timedOut)

/-- Modelled from the spec: `unlock()`: "fails if caller is not the owner.
Decrements depth; at depth 0 ... if the Wait Queue is non-empty, transfers
ownership" — with no waiters in a sequential replay, reaching depth 0
leaves the mutex unowned. -/
def k_mutex_unlock (mx : KMutex) (tid : Nat) : KMutex × MutexRet :=
  match mx.owner with
  | none => (mx, MutexRet.notOwner)
  | some t =>
      if t = tid then
        if mx.lockCount ≤ 1 then (⟨none, 0⟩, MutexRet.ok)
        else ({ mx with lockCount := mx.lockCount - 1 }, MutexRet.ok)
      else (mx, MutexRet.notOwner)

/-- `n` sequential lock calls by thread `tid`; the Bool records whether
every call returned success. -/
def mutex_lock_n (mx : KMutex) (tid : Nat) : Nat → KMutex × Bool
  | 0 => (mx, true)
  | n + 1 =>
      let r := k_mutex_lock mx tid
      let rest := mutex_lock_n r.1 tid n
      (rest.1, rest.2 && decide (r.2 = MutexRet.ok))

/-- `n` sequential unlock calls by thread `tid`; the Bool records whether
every call returned success. -/
def mutex_unlock_n (mx : KMutex) (tid : Nat) : Nat → KMutex × Bool
  | 0 => (mx, true)
  | n + 1 =>
      let r := k_mutex_unlock mx tid
      let rest := mutex_unlock_n r.1 tid n
      (rest.1, rest.2 && decide (r.2 = MutexRet.ok))

/-! ## Message queue (modelled from the spec) -/

/-- Timeout argument of a blocking primitive call (spec section 4.1:
duration may be "no-wait" = immediate, a finite duration, or
"forever" = never). -/
inductive KTimeout where
  | noWait
  | msec (n : Nat)
  | forever
  deriving DecidableEq, Repr

/-- Return codes of the modelled message-queue operations. -/
inductive MsgqRet where
  | ok
  | wouldBlock
  | timedOut
  deriving DecidableEq, Repr

/-- Modelled from the spec: kernel message queue (`struct k_msgq` is not in
the excerpted sources; only `K_MSGQ_DEFINE(benchmark_q_get, sizeof(int), 3, 4)`
style callers are).  Spec section 3 / 4.5: a fixed-capacity ring buffer of
fixed-size messages; the ring buffer is modelled as the list of queued
messages in FIFO order, so the count is the list length. -/
structure KMsgq where
  msgs : List Int
  maxMsgs : Nat
  deriving DecidableEq, Repr

/-- The benchmark queue `K_MSGQ_DEFINE(benchmark_q_get, sizeof(int), 3, 4)`:
capacity 3 messages, initially empty. -/
def benchmark_q_get : KMsgq := ⟨[], 3⟩

/-- The benchmark queue `K_MSGQ_DEFINE(benchmark_q, sizeof(int), 10, 4)`:
capacity 10 messages, initially empty. -/
def benchmark_q : KMsgq := ⟨[], 10⟩

/-- Result of a modelled `put` call: return code, resulting queue, whether
the caller blocked, and whether a timeout was registered with the Timeout
Manager. -/
structure PutRes where
  ret : MsgqRet
  q : KMsgq
  blocked : Bool
  timeoutRegistered : Bool
  deriving DecidableEq, Repr

/-- Modelled from the spec: `put(message, duration)` in a sequential
replay: "if count < capacity, copy the fixed-size message into the ring
buffer, increment count, ... return success. Else block (subject to
duration)"; section 4.1: "arming with duration no-wait on a primitive that
cannot immediately satisfy its condition fails the calling operation
immediately (WOULD_BLOCK) rather than registering a timeout".  With no
concurrent consumer, a blocking put times out. -/
def k_msgq_put (q : KMsgq) (m : Int) (t : KTimeout) : PutRes :=
  if q.msgs.length < q.maxMsgs then
    ⟨MsgqRet.ok, { q with msgs := q.msgs ++ [m] }, false, false⟩
  else
    match t with
    | KTimeout.noWait => ⟨MsgqRet.wouldBlock, q, false, false⟩
    | KTimeout.msec _ => ⟨MsgqRet.timedOut, q, true, true⟩
    | KTimeout.forever => ⟨MsgqRet.timedOut, q, true, false⟩

/-- Modelled from the spec: `get(message, duration)` in a sequential
replay: "if count > 0, pop, decrement, ... return success; else block".
Returns the popped message when successful. -/
def k_msgq_get (q : KMsgq) : KMsgq × Option Int :=
  match q.msgs with
  | [] => (q, none)
  | m :: rest => ({ q with msgs := rest }, some m)

/-- One operation of a message-queue replay sequence. -/
inductive QOp where
  | put (m : Int)
  | get
  deriving DecidableEq, Repr

/-- Replay a sequence of put/get operations on a message queue (puts with a
finite timeout, as the producer thread issues them); returns the final
queue, the successfully put messages in completion order, and the messages
returned by successful gets in completion order. -/
def msgq_replay (q : KMsgq) : List QOp → KMsgq × List Int × List Int
  | [] => (q, [], [])
  | QOp.put m :: ops =>
      let r := k_msgq_put q m (KTimeout.msec 20)
      let rest := msgq_replay r.q ops
      if r.ret = MsgqRet.ok then (rest.1, m :: rest.2.1, rest.2.2)
      else rest
  | QOp.get :: ops =>
      let r := k_msgq_get q
      let rest := msgq_replay r.1 ops
      match r.2 with
      | some m => (rest.1, rest.2.1, m :: rest.2.2)
      | none => rest

/-! ## Ethernet driver: eth_tx (eth_stm32_hal.c, non-STM32H7X path) -/

/-- The errno value EIO; `eth_tx` returns `-eioErr` (the errno EIO negated) on its error paths. -/
def eioErr : Int := 5

/-- Observable events of one `eth_tx` call, in program order: the mutex
operations on `dev_data->tx_mutex`, the reads of the TX DMA descriptor
status word (`IS_ETH_DMATXDESC_OWN(dma_tx_desc)`), `k_yield`, the
`net_pkt_read` copy into the DMA transmit buffer, the
`HAL_ETH_TransmitFrame` call, and the underflow recovery writes to
`DMASR`/`DMATPDR`. -/
inductive TxEvent where
  | lockTxMutex
  | readDescOwn
  | yield
  | copyToDmaBuffer
  | transmitFrame
  | clearTusResume
  | unlockTxMutex
  deriving DecidableEq, Repr

/-- The environment of one `eth_tx` call: the packet's total length, how
many loop iterations the TX descriptor's OWN bit stayed set, and the
outcomes of the fallible external calls. -/
structure TxInput where
  totalLen : Nat
  busyIters : Nat
  readFails : Bool
  halTransmitOk : Bool
  txUnderflow : Bool
  deriving DecidableEq, Repr

/-- The busy-wait loop `while (IS_ETH_DMATXDESC_OWN(dma_tx_desc) != RESET)
k_yield();`: each iteration reads the descriptor's OWN bit and yields; the
final read observes the bit clear. -/
def descWaitTrace : Nat → List TxEvent
  | 0 => [TxEvent.readDescOwn]
  | n + 1 => TxEvent.readDescOwn :: TxEvent.yield :: descWaitTrace n

/-- `eth_tx` (eth_stm32_hal.c lines 166-254, non-STM32H7X path) as a
function from its environment to its return value and event trace.
The body locks `tx_mutex` with `K_FOREVER`, rejects packets longer than
`ETH_TX_BUF_SIZE` (a build-time constant, passed here as `bufSize`),
spins until the first TX DMA descriptor is no longer owned by DMA, copies
the packet into the DMA buffer, transmits, handles transmit underflow, and
funnels every path through the `error:` label, which unlocks the mutex and
returns. -/
def eth_tx (bufSize : Nat) (i : TxInput) : Int × List TxEvent :=
  let finish : Int → List TxEvent → Int × List TxEvent := fun res mid =>
    (res, TxEvent.lockTxMutex :: (mid ++ [TxEvent.unlockTxMutex]))
  if bufSize < i.totalLen then
    finish (-eioErr) []
  else
    let wait := descWaitTrace i.busyIters
    if i.readFails then
      finish (-eioErr) (wait ++ [TxEvent.copyToDmaBuffer])
    else if i.halTransmitOk = false then
      finish (-eioErr) (wait ++ [TxEvent.copyToDmaBuffer, TxEvent.transmitFrame])
    else if i.txUnderflow then
      finish (-eioErr) (wait ++ [TxEvent.copyToDmaBuffer, TxEvent.transmitFrame,
                              TxEvent.clearTusResume])
    else
      finish 0 (wait ++ [TxEvent.copyToDmaBuffer, TxEvent.transmitFrame])

/-- Whether a `TxEvent` touches a TX DMA descriptor or the DMA transmit
buffer. -/
def touchesTxHw : TxEvent → Bool
  | TxEvent.readDescOwn => true
  | TxEvent.copyToDmaBuffer => true
  | TxEvent.transmitFrame => true
  | _ => false

/-! ## Ethernet driver: eth_rx (eth_stm32_hal.c, non-STM32H7X path) -/

/-- The environment of one `eth_rx` call: whether
`HAL_ETH_GetReceivedFrame_IT` dequeued a frame, the OWN bit of each of the
frame's `SegCount` RX DMA descriptors (walked from
`RxFrameInfos.FSRxDesc` along `Buffer2NextDescAddr`), and the outcomes of
the fallible packet-buffer calls. -/
structure RxInput where
  frameAvailable : Bool
  segOwnBits : List Bool
  allocFails : Bool
  writeFails : Bool
  rbusSet : Bool
  deriving DecidableEq, Repr

/-- The observable outcome of one `eth_rx` call: whether a packet was
returned to the caller, the OWN bits of the frame's descriptors
afterwards, the `RxFrameInfos.SegCount` value afterwards, and whether DMA
reception was resumed via the RBUS recovery writes. -/
structure RxOutcome where
  pktReturned : Bool
  segOwnBits : List Bool
  segCount : Nat
  resumedDma : Bool
  deriving DecidableEq, Repr

/-- `eth_rx` (eth_stm32_hal.c lines 275-402, non-STM32H7X path) as a
function from its environment to its observable outcome.  If no frame was
dequeued it returns NULL at once.  Otherwise it allocates a net_pkt and
copies the frame; on allocation or copy failure it jumps to
`release_desc` with a NULL packet.  The `release_desc` code sets the OWN
bit on each of the frame's `SegCount` descriptors, clears `SegCount`, and
clears/resumes DMA if RBUS was set — on the success path and on both
failure paths alike. -/
def eth_rx (i : RxInput) : RxOutcome :=
  if i.frameAvailable = false then
    ⟨false, i.segOwnBits, i.segOwnBits.length, false⟩
  else
    let pktOk := i.allocFails = false && i.writeFails = false
    ⟨pktOk, i.segOwnBits.map (fun _ => true), 0, i.rbusSet⟩

/-! ## Ethernet driver: eth_isr and HAL_ETH_RxCpltCallback -/

/-- The kernel semaphores of the driver: `dev_data->rx_int_sem` is the
only one. -/
inductive SemId where
  | rxIntSem
  deriving DecidableEq, Repr

/-- The kernel synchronization calls observable in the driver's code.
`semGive s` is `k_sem_give` on semaphore `s`; `semTake s t` is
`k_sem_take(s, t)`; `mutexLock t` / `mutexUnlock` are the
`tx_mutex` operations (thread context only). -/
inductive KernelCall where
  | semGive (target : SemId)
  | semTake (target : SemId) (t : KTimeout)
  | mutexLock (t : KTimeout)
  | mutexUnlock
  deriving DecidableEq, Repr

/-- Whether a kernel call can block its caller.  `give` never blocks
(spec section 4.3); `take` and `lock` block unless called with
no-wait; `unlock` does not block. -/
def blockingCall : KernelCall → Bool
  | KernelCall.semGive _ => false
  | KernelCall.semTake _ KTimeout.noWait => false
  | KernelCall.semTake _ _ => true
  | KernelCall.mutexLock KTimeout.noWait => false
  | KernelCall.mutexLock _ => true
  | KernelCall.mutexUnlock => false

/-- The semaphore a call takes, if it is a take. -/
def callTakesSem : KernelCall → Option SemId
  | KernelCall.semTake s _ => some s
  | _ => none

/-- The semaphore a call gives, if it is a give. -/
def callGivesSem : KernelCall → Option SemId
  | KernelCall.semGive s => some s
  | _ => none

/-- Whether a take/lock call uses a bounded timeout (anything except
"forever"), so the caller is released after at most that duration. -/
def callTimeoutBounded : KernelCall → Bool
  | KernelCall.semTake _ KTimeout.forever => false
  | KernelCall.mutexLock KTimeout.forever => false
  | _ => true

/-- `HAL_ETH_RxCpltCallback` (eth_stm32_hal.c lines 489-499): its body
performs exactly one kernel call, `k_sem_give(&dev_data->rx_int_sem)`. -/
def rxCpltCallbackCalls : List KernelCall := [KernelCall.semGive SemId.rxIntSem]

/-- The semaphore wait at the top of every `rx_thread` loop iteration
(eth_stm32_hal.c line 424): `k_sem_take(&dev_data->rx_int_sem,
K_MSEC(CONFIG_ETH_STM32_CARRIER_CHECK_RX_IDLE_TIMEOUT_MS))`; the
configured idle timeout in milliseconds is the `idleMs` parameter. -/
def rx_thread_wait (idleMs : Nat) : KernelCall :=
  KernelCall.semTake SemId.rxIntSem (KTimeout.msec idleMs)

/-- `eth_isr` (eth_stm32_hal.c lines 468-486): its body calls only
`HAL_ETH_IRQHandler` (external HAL code, no kernel primitive itself),
which may invoke the registered receive-complete callback
`HAL_ETH_RxCpltCallback`; the kernel calls reached are exactly those of
the callback when it fires, none otherwise. -/
def eth_isr_calls (rxComplete : Bool) : List KernelCall :=
  if rxComplete then rxCpltCallbackCalls else []

/-! ## Ethernet driver: eth_initialize (non-STM32H7X path) -/

/-- Result of `HAL_ETH_Init`: `eth_initialize` continues on OK and on
timeout (logged only) but returns -EINVAL on any other failure. -/
inductive HalInitRet where
  | ok
  | timeout
  | err
  deriving DecidableEq, Repr

/-- The kernel-object and setup actions `eth_initialize` performs, in
program order. -/
inductive InitEvent where
  | clockOn
  | halInit
  | mutexInitTx
  | semInitRxInt (initialCount : Nat)
  | threadCreateRx
  | dmaDescListInit
  | halStart
  | mcastFilterCfg
  deriving DecidableEq, Repr

/-- The errno value EINVAL. -/
def einvalErr : Int := 22

/-- `eth_initialize` (eth_stm32_hal.c lines 508-645, non-STM32H7X path)
as a function from its environment to its return value and action trace.
Clock failure returns `-eioErr` (the errno EIO negated) at once; a hard `HAL_ETH_Init` failure
returns -EINVAL; otherwise the function initializes `tx_mutex`,
initializes `rx_int_sem` with count 0 (`k_sem_init(&dev_data->rx_int_sem,
0, UINT_MAX)`), creates the single `rx_thread` worker via
`k_thread_create`, initializes the DMA descriptor lists, starts the HAL
(failure only logged) and disables the multicast filter, returning 0. -/
def eth_init (clockFails : Bool) (halInitRet : HalInitRet)
    (halStartOk : Bool) : Int × List InitEvent :=
  if clockFails then (-eioErr, [InitEvent.clockOn])
  else
    match halInitRet with
    | HalInitRet.err => (-einvalErr, [InitEvent.clockOn, InitEvent.halInit])
    | _ =>
        let _ := halStartOk
        (0, [InitEvent.clockOn, InitEvent.halInit, InitEvent.mutexInitTx,
             InitEvent.semInitRxInt 0, InitEvent.threadCreateRx,
             InitEvent.dmaDescListInit, InitEvent.halStart,
             InitEvent.mcastFilterCfg])

/-! ## Ethernet driver: rx_thread -/

/-- A carrier notification to the network stack: `net_eth_carrier_on` or
`net_eth_carrier_off`. -/
inductive Carrier where
  | on
  | off
  deriving DecidableEq, Repr

/-- The environment of one iteration of the `rx_thread` loop: the result
of `k_sem_take(&dev_data->rx_int_sem, K_MSEC(...))` (0 = taken, -EAGAIN =
timed out), and on timeout the outcome of the PHY basic-status-register
read. -/
structure RxIterInput where
  semTaken : Bool
  phyReadOk : Bool
  phyLinked : Bool
  deriving DecidableEq, Repr

/-- One iteration of the `rx_thread` loop (eth_stm32_hal.c lines 423-465)
acting on `dev_data->link_up`: on a taken semaphore, if `link_up` was not
true it sets it true and calls `net_eth_carrier_on`; on a semaphore
timeout it reads the PHY status register, and, if the read succeeded, it
sets `link_up` and notifies carrier-on when the link is up and `link_up`
was false, carrier-off when the link is down and `link_up` was true.
Returns the new `link_up` and the notification emitted, if any.  Packet
reception (`eth_rx` / `net_recv_data`) does not touch `link_up`. -/
def rx_thread_step (linkUp : Bool) (i : RxIterInput) : Bool × Option Carrier :=
  if i.semTaken then
    if linkUp = false then (true, some Carrier.on) else (linkUp, none)
  else
    if i.phyReadOk then
      if i.phyLinked then
        if linkUp = false then (true, some Carrier.on) else (linkUp, none)
      else
        if linkUp = true then (false, some Carrier.off) else (linkUp, none)
    else (linkUp, none)

/-- Iterating the `rx_thread` loop over a sequence of per-iteration
environments: final `link_up` and the carrier notifications emitted, in
order. -/
def rx_thread_run (linkUp : Bool) : List RxIterInput → Bool × List Carrier
  | [] => (linkUp, [])
  | i :: is =>
      let s := rx_thread_step linkUp i
      let rest := rx_thread_run s.1 is
      (rest.1, s.2.toList ++ rest.2)

/-- No two consecutive notifications are of the same kind. -/
def alternates : List Carrier → Bool
  | [] => true
  | [_] => true
  | a :: b :: rest => decide (a ≠ b) && alternates (b :: rest)

/-! ## Helper lemmas -/

/-- The busy-wait trace contains no mutex operation. -/
theorem descWaitTrace_no_mutex (n : Nat) :
    TxEvent.lockTxMutex ∉ descWaitTrace n ∧
    TxEvent.unlockTxMutex ∉ descWaitTrace n := by
  induction n with
  | zero => simp [descWaitTrace]
  | succ n ih => simp [descWaitTrace, ih.1, ih.2]

/-- Locking a mutex already owned by the caller k more times raises the
depth by k, with every call succeeding. -/
theorem mutex_lock_n_owner (tid : Nat) :
    ∀ k d, mutex_lock_n ⟨some tid, d⟩ tid k = (⟨some tid, d + k⟩, true) := by
  intro k
  induction k with
  | zero => intro d; simp [mutex_lock_n]
  | succ k ih =>
      intro d
      have hk : k_mutex_lock ⟨some tid, d⟩ tid = (⟨some tid, d + 1⟩, MutexRet.ok) := by
        simp [k_mutex_lock]
      simp only [mutex_lock_n, hk]
      rw [ih (d + 1)]
      simp
      omega

/-- Unlocking a mutex owned by the caller at depth d exactly d times
releases it, with every call succeeding. -/
theorem mutex_unlock_n_owner (tid : Nat) :
    ∀ d, 1 ≤ d → mutex_unlock_n ⟨some tid, d⟩ tid d = (⟨none, 0⟩, true) := by
  intro d
  induction d with
  | zero => omega
  | succ d ih =>
      intro _
      by_cases hd : d = 0
      · subst hd
        simp [mutex_unlock_n, k_mutex_unlock]
      · have h2 : ¬ (d + 1 ≤ 1) := by omega
        have hk : k_mutex_unlock ⟨some tid, d + 1⟩ tid =
            (⟨some tid, d⟩, MutexRet.ok) := by
          simp [k_mutex_unlock, h2]
        simp only [mutex_unlock_n, hk]
        rw [ih (by omega)]
        simp

/-- The FIFO stream invariant of the message-queue replay: the initial
contents followed by the successfully put messages equal the got messages
followed by the final contents. -/
theorem msgq_replay_stream (ops : List QOp) : ∀ q : KMsgq,
    q.msgs ++ (msgq_replay q ops).2.1 =
      (msgq_replay q ops).2.2 ++ (msgq_replay q ops).1.msgs := by
  induction ops with
  | nil => intro q; simp [msgq_replay]
  | cons op ops ih =>
      intro q
      cases op with
      | put m =>
          by_cases hfull : q.msgs.length < q.maxMsgs
          · have hp : k_msgq_put q m (KTimeout.msec 20) =
                ⟨MsgqRet.ok, { q with msgs := q.msgs ++ [m] }, false, false⟩ := by
              simp [k_msgq_put, hfull]
            have h := ih { q with msgs := q.msgs ++ [m] }
            simp only [msgq_replay, hp] at h ⊢
            simp only [List.append_assoc] at h
            simpa using h
          · have hp : k_msgq_put q m (KTimeout.msec 20) =
                ⟨MsgqRet.timedOut, q, true, true⟩ := by
              simp [k_msgq_put, hfull]
            have h := ih q
            simp only [msgq_replay, hp] at h ⊢
            simpa using h
      | get =>
          rcases hq : q.msgs with _ | ⟨m, rest⟩
          · have hg : k_msgq_get q = (q, none) := by
              simp [k_msgq_get, hq]
            have h := ih q
            simp only [msgq_replay, hg] at h ⊢
            simpa [hq] using h
          · have hg : k_msgq_get q = ({ q with msgs := rest }, some m) := by
              simp [k_msgq_get, hq]
            have h := ih { q with msgs := rest }
            simp only [msgq_replay, hg] at h ⊢
            simpa [hq] using h

/-- Case analysis of one `rx_thread` iteration: a carrier-on notification
is emitted exactly when `link_up` was false and flips it to true, a
carrier-off exactly when it was true and flips it to false, and otherwise
`link_up` is unchanged. -/
theorem rx_thread_step_cases (s : Bool) (i : RxIterInput) :
    ((rx_thread_step s i).2 = some Carrier.on →
        s = false ∧ (rx_thread_step s i).1 = true) ∧
    ((rx_thread_step s i).2 = some Carrier.off →
        s = true ∧ (rx_thread_step s i).1 = false) ∧
    ((rx_thread_step s i).2 = none → (rx_thread_step s i).1 = s) := by
  obtain ⟨a, b, c⟩ := i
  revert s a b c
  decide

/-- Invariants of iterating the `rx_thread` loop: the emitted carrier
notifications strictly alternate, the first one is determined by the
initial `link_up`, and the final `link_up` records the last notification
(or the initial value when none was emitted). -/
theorem rx_thread_run_spec (l : List RxIterInput) : ∀ s : Bool,
    alternates (rx_thread_run s l).2 = true ∧
    (∀ c, (rx_thread_run s l).2.head? = some c →
        c = (if s then Carrier.off else Carrier.on)) ∧
    ((rx_thread_run s l).2.getLast? = some Carrier.on →
        (rx_thread_run s l).1 = true) ∧
    ((rx_thread_run s l).2.getLast? = some Carrier.off →
        (rx_thread_run s l).1 = false) ∧
    ((rx_thread_run s l).2 = [] → (rx_thread_run s l).1 = s) := by
  induction l with
  | nil => intro s; simp [rx_thread_run, alternates]
  | cons i l ih =>
      intro s
      obtain ⟨hon, hoff, hnone⟩ := rx_thread_step_cases s i
      rcases hn : (rx_thread_step s i).2 with _ | c
      · have hs1 : (rx_thread_step s i).1 = s := hnone hn
        have h := ih s
        simp only [rx_thread_run, hn, hs1, Option.toList_none, List.nil_append]
        exact h
      · cases c
        · obtain ⟨hs0, hs1⟩ := hon hn
          subst hs0
          obtain ⟨halt, hhead, hlaston, hlastoff, hnil⟩ := ih true
          simp only [rx_thread_run, hn, hs1, Option.toList_some,
            List.singleton_append]
          rcases hr : (rx_thread_run true l).2 with _ | ⟨b, r2⟩
          · refine ⟨by simp [alternates], ?_, ?_, ?_, by simp⟩
            · intro c hc
              simp only [List.head?_cons, Option.some.injEq] at hc
              simp [← hc]
            · intro _; exact hnil hr
            · intro hcontra
              simp at hcontra
          · have hb : b = Carrier.off := by
              have := hhead b (by rw [hr]; rfl)
              simpa using this
            refine ⟨?_, ?_, ?_, ?_, by simp⟩
            · subst hb
              have halt' := halt
              rw [hr] at halt'
              simp [alternates, halt']
            · intro c hc
              simp only [List.head?_cons, Option.some.injEq] at hc
              simp [← hc]
            · intro hlast
              rw [List.getLast?_cons_cons] at hlast
              rw [hr] at hlaston
              exact hlaston hlast
            · intro hlast
              rw [List.getLast?_cons_cons] at hlast
              rw [hr] at hlastoff
              exact hlastoff hlast
        · obtain ⟨hs0, hs1⟩ := hoff hn
          subst hs0
          obtain ⟨halt, hhead, hlaston, hlastoff, hnil⟩ := ih false
          simp only [rx_thread_run, hn, hs1, Option.toList_some,
            List.singleton_append]
          rcases hr : (rx_thread_run false l).2 with _ | ⟨b, r2⟩
          · refine ⟨by simp [alternates], ?_, ?_, ?_, by simp⟩
            · intro c hc
              simp only [List.head?_cons, Option.some.injEq] at hc
              simp [← hc]
            · intro hcontra
              simp at hcontra
            · intro _; exact hnil hr
          · have hb : b = Carrier.on := by
              have := hhead b (by rw [hr]; rfl)
              simpa using this
            refine ⟨?_, ?_, ?_, ?_, by simp⟩
            · subst hb
              have halt' := halt
              rw [hr] at halt'
              simp [alternates, halt']
            · intro c hc
              simp only [List.head?_cons, Option.some.injEq] at hc
              simp [← hc]
            · intro hlast
              rw [List.getLast?_cons_cons] at hlast
              rw [hr] at hlaston
              exact hlaston hlast
            · intro hlast
              rw [List.getLast?_cons_cons] at hlast
              rw [hr] at hlastoff
              exact hlastoff hlast

/-! ## Claim theorems -/

/-- C1 (counterexample): the claim as stated is false.  On the
benchmark semaphore sem_bench (maximum count 1), replaying the sequence
[give, give] leaves the counter at 1 because the second give hits the
configured maximum, while the claimed value — gives minus takes clamped
below at 0 — is 2. -/
theorem sem_replay_clamp_counterexample :
    ¬ (((sem_replay sem_bench [SemOp.give, SemOp.give]).1.count : Int) =
        max ((semGives [SemOp.give, SemOp.give] : Int) -
             (semTakes [SemOp.give, SemOp.give] : Int)) 0) := by
  decide

/-- C1 (amended): for a semaphore whose count starts at or below its
maximum, the counter after replaying any finite take/give sequence equals
the initial count plus the effective gives (those that incremented the
counter, i.e. ran below the maximum) minus the effective takes (those
that decremented it, i.e. ran on a positive counter) — stated
subtraction-free as counter + effective takes = initial + effective
gives — and the counter never exceeds the maximum count. -/
theorem sem_replay_effective_counts (s : KSem) (ops : List SemOp)
    (h : s.count ≤ s.limit) :
    (sem_replay s ops).1.count + (sem_replay s ops).2.2 =
      s.count + (sem_replay s ops).2.1 ∧
    (sem_replay s ops).1.count ≤ s.limit := by
  induction ops generalizing s with
  | nil => simpa [sem_replay] using h
  | cons op ops ih =>
      cases op with
      | give =>
          by_cases hc : s.count < s.limit
          · have hg : k_sem_give s = ⟨s.count + 1, s.limit⟩ := by
              simp [k_sem_give, hc]
            obtain ⟨h1, h2⟩ := ih (s := ⟨s.count + 1, s.limit⟩) (by simpa using hc)
            simp only [sem_replay, hg, if_pos hc]
            simp only at h1
            exact ⟨by omega, h2⟩
          · have hg : k_sem_give s = s := by
              simp [k_sem_give, hc]
            have h' := ih (s := s) h
            simp only [sem_replay, hg, if_neg hc]
            exact h'
      | take =>
          by_cases hc : 0 < s.count
          · have ht : (k_sem_take s).1 = ⟨s.count - 1, s.limit⟩ := by
              simp [k_sem_take, hc]
            obtain ⟨h1, h2⟩ := ih (s := ⟨s.count - 1, s.limit⟩) (by simp; omega)
            simp only [sem_replay, ht, if_pos hc]
            simp only at h1
            exact ⟨by omega, h2⟩
          · have ht : (k_sem_take s).1 = s := by
              simp [k_sem_take, hc]
            have h' := ih (s := s) h
            simp only [sem_replay, ht, if_neg hc]
            exact h'

/-- C1 (witness): the amended identity evaluated on sem_bench and the
sequence [give, give, take]: one effective give, one effective take,
final counter 0. -/
theorem sem_replay_effective_counts_witness :
    sem_bench.count ≤ sem_bench.limit ∧
    ((sem_replay sem_bench [SemOp.give, SemOp.give, SemOp.take]).1.count +
        (sem_replay sem_bench [SemOp.give, SemOp.give, SemOp.take]).2.2 =
      sem_bench.count +
        (sem_replay sem_bench [SemOp.give, SemOp.give, SemOp.take]).2.1 ∧
     (sem_replay sem_bench [SemOp.give, SemOp.give, SemOp.take]).1.count ≤
        sem_bench.limit) :=
  ⟨by decide,
   sem_replay_effective_counts sem_bench [SemOp.give, SemOp.give, SemOp.take]
     (by decide)⟩

/-- C2: every call to eth_tx acquires the transmit mutex first and
releases it exactly once, last, on every return path: for all
environments, the event trace decomposes as the mutex lock, then a middle
section containing no mutex operation (in particular every TX DMA
descriptor read and DMA transmit buffer write lies there, after the lock
and before the unlock), then the single mutex unlock. -/
theorem eth_tx_mutex_serialized (bufSize : Nat) (i : TxInput) :
    ∃ mid : List TxEvent,
      (eth_tx bufSize i).2 =
        TxEvent.lockTxMutex :: (mid ++ [TxEvent.unlockTxMutex]) ∧
      TxEvent.lockTxMutex ∉ mid ∧ TxEvent.unlockTxMutex ∉ mid := by
  obtain ⟨hl, hu⟩ := descWaitTrace_no_mutex i.busyIters
  unfold eth_tx
  by_cases h1 : bufSize < i.totalLen
  · exact ⟨[], by simp [h1], by simp, by simp⟩
  · by_cases h2 : i.readFails
    · refine ⟨descWaitTrace i.busyIters ++ [TxEvent.copyToDmaBuffer],
        by simp [h1, h2], by simp [hl], by simp [hu]⟩
    · by_cases h3 : i.halTransmitOk = false
      · refine ⟨descWaitTrace i.busyIters ++
            [TxEvent.copyToDmaBuffer, TxEvent.transmitFrame],
          by simp [h1, h2, h3], by simp [hl], by simp [hu]⟩
      · by_cases h4 : i.txUnderflow
        · refine ⟨descWaitTrace i.busyIters ++
              [TxEvent.copyToDmaBuffer, TxEvent.transmitFrame,
               TxEvent.clearTusResume],
            by simp [h1, h2, h3, h4], by simp [hl], by simp [hu]⟩
        · refine ⟨descWaitTrace i.busyIters ++
              [TxEvent.copyToDmaBuffer, TxEvent.transmitFrame],
            by simp [h1, h2, h3, h4], by simp [hl], by simp [hu]⟩

/-- C3: the kernel synchronization calls reachable from eth_isr (through
the HAL interrupt handler and the receive-complete callback
HAL_ETH_RxCpltCallback) are exactly k_sem_give on rx_int_sem, which never
blocks its caller. -/
theorem eth_isr_only_nonblocking_calls (rxComplete : Bool) (c : KernelCall)
    (h : c ∈ eth_isr_calls rxComplete) :
    c = KernelCall.semGive SemId.rxIntSem ∧ blockingCall c = false := by
  cases rxComplete with
  | false => simp [eth_isr_calls] at h
  | true =>
      simp only [eth_isr_calls, rxCpltCallbackCalls, if_pos] at h
      simp only [List.mem_singleton] at h
      subst h
      exact ⟨rfl, rfl⟩

/-- C3 (witness): the property instantiated at the semaphore give the
callback performs. -/
theorem eth_isr_only_nonblocking_calls_witness :
    KernelCall.semGive SemId.rxIntSem ∈ eth_isr_calls true ∧
    (KernelCall.semGive SemId.rxIntSem = KernelCall.semGive SemId.rxIntSem ∧
     blockingCall (KernelCall.semGive SemId.rxIntSem) = false) :=
  ⟨by decide,
   eth_isr_only_nonblocking_calls true (KernelCall.semGive SemId.rxIntSem)
     (by decide)⟩

/-- C4: starting from the unowned benchmark mutex mutex0, N sequential
lock calls by one thread all succeed and leave it owned at depth N, the
following N unlock calls all succeed and leave it unowned at depth 0, and
an (N+1)-th unlock fails with the not-owner usage error, leaving the
state unchanged. -/
theorem mutex_recursive_lock_unlock (tid n : Nat) (h : 1 ≤ n) :
    mutex_lock_n mutex0 tid n = (⟨some tid, n⟩, true) ∧
    mutex_unlock_n ⟨some tid, n⟩ tid n = (mutex0, true) ∧
    k_mutex_unlock mutex0 tid = (mutex0, MutexRet.notOwner) := by
  refine ⟨?_, ?_, by simp [k_mutex_unlock, mutex0]⟩
  · obtain ⟨m, rfl⟩ : ∃ m, n = m + 1 := ⟨n - 1, by omega⟩
    have hk : k_mutex_lock mutex0 tid = (⟨some tid, 1⟩, MutexRet.ok) := by
      simp [k_mutex_lock, mutex0]
    simp only [mutex_lock_n, hk]
    rw [mutex_lock_n_owner tid m 1]
    simp [Nat.add_comm 1 m]
  · have := mutex_unlock_n_owner tid n h
    simpa [mutex0] using this

/-- C4 (witness): three locks and three unlocks by thread 7, then a
fourth unlock failing with the not-owner error. -/
theorem mutex_recursive_lock_unlock_witness :
    (1 ≤ 3) ∧
    (mutex_lock_n mutex0 7 3 = (⟨some 7, 3⟩, true) ∧
     mutex_unlock_n ⟨some 7, 3⟩ 7 3 = (mutex0, true) ∧
     k_mutex_unlock mutex0 7 = (mutex0, MutexRet.notOwner)) :=
  ⟨by decide, mutex_recursive_lock_unlock 7 3 (by decide)⟩

/-- C5: FIFO ordering of the message queue.  Replaying any sequence of
put/get operations (each completing before the next begins) on an
initially empty fixed-capacity queue, the messages returned by the gets
followed by the messages still queued equal the successfully put messages
in put order — so the gets return m1, m2, ..., mk in exactly the order
they were put. -/
theorem msgq_fifo_order (cap : Nat) (ops : List QOp) :
    (msgq_replay ⟨[], cap⟩ ops).2.2 ++ (msgq_replay ⟨[], cap⟩ ops).1.msgs =
      (msgq_replay ⟨[], cap⟩ ops).2.1 := by
  have h := msgq_replay_stream ops ⟨[], cap⟩
  simpa using h.symm

/-- C6: a put with the no-wait duration on a full message queue (count
equal to capacity) returns WOULD_BLOCK immediately, without blocking the
caller, without registering a timeout, and without mutating the queue. -/
theorem msgq_put_nowait_full_would_block (q : KMsgq) (m : Int)
    (h : q.msgs.length = q.maxMsgs) :
    k_msgq_put q m KTimeout.noWait =
      ⟨MsgqRet.wouldBlock, q, false, false⟩ := by
  simp [k_msgq_put, h]

/-- C6 (witness): the full benchmark queue benchmark_q_get (capacity 3)
holding three messages rejects a no-wait put unchanged. -/
theorem msgq_put_nowait_full_would_block_witness :
    (⟨[1, 2, 3], 3⟩ : KMsgq).msgs.length = (⟨[1, 2, 3], 3⟩ : KMsgq).maxMsgs ∧
    k_msgq_put ⟨[1, 2, 3], 3⟩ 4 KTimeout.noWait =
      ⟨MsgqRet.wouldBlock, ⟨[1, 2, 3], 3⟩, false, false⟩ :=
  ⟨by decide, msgq_put_nowait_full_would_block ⟨[1, 2, 3], 3⟩ 4 (by decide)⟩

/-- C7: whenever eth_initialize returns 0, its trace contains exactly one
thread creation — the rx_thread worker — and the initialization of
rx_int_sem with count 0; the worker's loop blocks on a take of that same
semaphore with a bounded (K_MSEC) timeout, and the receive-complete
callback gives exactly that semaphore. -/
theorem eth_init_single_rx_thread (clockFails : Bool)
    (halInitRet : HalInitRet) (halStartOk : Bool) (idleMs : Nat)
    (h : (eth_init clockFails halInitRet halStartOk).1 = 0) :
    (eth_init clockFails halInitRet halStartOk).2.count
        InitEvent.threadCreateRx = 1 ∧
    InitEvent.semInitRxInt 0 ∈
        (eth_init clockFails halInitRet halStartOk).2 ∧
    callTakesSem (rx_thread_wait idleMs) = some SemId.rxIntSem ∧
    callTimeoutBounded (rx_thread_wait idleMs) = true ∧
    rxCpltCallbackCalls.map callGivesSem = [some SemId.rxIntSem] := by
  cases clockFails with
  | true => exact absurd h (by simp [eth_init, eioErr])
  | false =>
      cases halInitRet with
      | err => exact absurd h (by simp [eth_init, einvalErr])
      | ok =>
          refine ⟨?_, ?_, rfl, rfl, rfl⟩
          · simp [eth_init, List.count_cons]
          · simp [eth_init]
      | timeout =>
          refine ⟨?_, ?_, rfl, rfl, rfl⟩
          · simp [eth_init, List.count_cons]
          · simp [eth_init]

/-- C7 (witness): a successful initialization (clocks on, HAL init OK)
with the idle timeout set to 1000 ms. -/
theorem eth_init_single_rx_thread_witness :
    (eth_init false HalInitRet.ok true).1 = 0 ∧
    ((eth_init false HalInitRet.ok true).2.count
        InitEvent.threadCreateRx = 1 ∧
     InitEvent.semInitRxInt 0 ∈ (eth_init false HalInitRet.ok true).2 ∧
     callTakesSem (rx_thread_wait 1000) = some SemId.rxIntSem ∧
     callTimeoutBounded (rx_thread_wait 1000) = true ∧
     rxCpltCallbackCalls.map callGivesSem = [some SemId.rxIntSem]) :=
  ⟨by decide, eth_init_single_rx_thread false HalInitRet.ok true 1000
    (by decide)⟩

/-- C8: on the non-STM32H7X path, whenever eth_rx dequeues a frame, it
returns with the OWN bit set on every one of the frame's SegCount RX DMA
descriptors (all of them — none dropped) and SegCount reset to 0,
regardless of whether packet allocation or the copy failed. -/
theorem eth_rx_releases_descriptors (i : RxInput)
    (h : i.frameAvailable = true) :
    (∀ b ∈ (eth_rx i).segOwnBits, b = true) ∧
    (eth_rx i).segCount = 0 ∧
    (eth_rx i).segOwnBits.length = i.segOwnBits.length := by
  simp [eth_rx, h]

/-- C8 (witness): a dequeued two-descriptor frame whose packet allocation
fails still has both descriptors returned to DMA and SegCount cleared. -/
theorem eth_rx_releases_descriptors_witness :
    (⟨true, [false, false], true, false, true⟩ : RxInput).frameAvailable
        = true ∧
    ((∀ b ∈ (eth_rx ⟨true, [false, false], true, false, true⟩).segOwnBits,
        b = true) ∧
     (eth_rx ⟨true, [false, false], true, false, true⟩).segCount = 0 ∧
     (eth_rx ⟨true, [false, false], true, false, true⟩).segOwnBits.length =
       (⟨true, [false, false], true, false, true⟩ : RxInput).segOwnBits.length) :=
  ⟨by decide,
   eth_rx_releases_descriptors ⟨true, [false, false], true, false, true⟩
     (by decide)⟩

/-- C9: when the packet's total length exceeds the TX buffer size, eth_tx
returns -EIO with a trace consisting of only the mutex lock and unlock:
no data is copied to the DMA transmit buffer, no transmit is initiated,
no descriptor is touched, and the mutex is still released. -/
theorem eth_tx_oversize_rejected (bufSize : Nat) (i : TxInput)
    (h : bufSize < i.totalLen) :
    eth_tx bufSize i =
      (-eioErr, [TxEvent.lockTxMutex, TxEvent.unlockTxMutex]) ∧
    ∀ e ∈ (eth_tx bufSize i).2, touchesTxHw e = false := by
  have ht : eth_tx bufSize i =
      (-eioErr, [TxEvent.lockTxMutex, TxEvent.unlockTxMutex]) := by
    simp [eth_tx, h]
  refine ⟨ht, ?_⟩
  intro e he
  rw [ht] at he
  simp only [List.mem_cons, List.mem_singleton, List.not_mem_nil,
    or_false] at he
  rcases he with rfl | rfl <;> rfl

/-- C9 (witness): a 1525-byte packet against a 1524-byte TX buffer. -/
theorem eth_tx_oversize_rejected_witness :
    1524 < (⟨1525, 0, false, true, false⟩ : TxInput).totalLen ∧
    (eth_tx 1524 ⟨1525, 0, false, true, false⟩ =
       (-eioErr, [TxEvent.lockTxMutex, TxEvent.unlockTxMutex]) ∧
     ∀ e ∈ (eth_tx 1524 ⟨1525, 0, false, true, false⟩).2,
       touchesTxHw e = false) :=
  ⟨by decide,
   eth_tx_oversize_rejected 1524 ⟨1525, 0, false, true, false⟩ (by decide)⟩

/-- C10: in every rx_thread iteration, carrier-on is emitted only when
link_up was false (and link_up becomes true), carrier-off only when it
was true (and it becomes false), and link_up is unchanged when nothing is
emitted; consequently over any run the notifications strictly alternate
and the final link_up records the last notification emitted (or the
initial value when none was). -/
theorem rx_thread_carrier_alternation :
    (∀ (s : Bool) (i : RxIterInput),
      ((rx_thread_step s i).2 = some Carrier.on →
          s = false ∧ (rx_thread_step s i).1 = true) ∧
      ((rx_thread_step s i).2 = some Carrier.off →
          s = true ∧ (rx_thread_step s i).1 = false) ∧
      ((rx_thread_step s i).2 = none → (rx_thread_step s i).1 = s)) ∧
    (∀ (s : Bool) (l : List RxIterInput),
      alternates (rx_thread_run s l).2 = true ∧
      ((rx_thread_run s l).2.getLast? = some Carrier.on →
          (rx_thread_run s l).1 = true) ∧
      ((rx_thread_run s l).2.getLast? = some Carrier.off →
          (rx_thread_run s l).1 = false) ∧
      ((rx_thread_run s l).2 = [] → (rx_thread_run s l).1 = s)) := by
  refine ⟨rx_thread_step_cases, fun s l => ?_⟩
  obtain ⟨h1, _, h3, h4, h5⟩ := rx_thread_run_spec l s
  exact ⟨h1, h3, h4, h5⟩

/-- C10 (witness): from link_up = false, an iteration that takes the
semaphore emits carrier-on and sets link_up; a two-iteration run in which
the link then drops emits the alternating [on, off]. -/
theorem rx_thread_carrier_alternation_witness :
    (rx_thread_step false ⟨true, false, false⟩).2 = some Carrier.on ∧
    (false = false ∧ (rx_thread_step false ⟨true, false, false⟩).1 = true) ∧
    alternates
      (rx_thread_run false
        [⟨true, false, false⟩, ⟨false, true, false⟩]).2 = true :=
  ⟨by decide,
   (rx_thread_carrier_alternation.1 false ⟨true, false, false⟩).1 (by decide),
   (rx_thread_carrier_alternation.2 false
      [⟨true, false, false⟩, ⟨false, true, false⟩]).1⟩
